import Mathlib

/-
Verification development for the worldping-gw request-processing pipeline.

The definitions below are a shallow embedding of the repository source:
  api/elasticsearch.go : Metrics ingestion (metricsJson, metricsBinary) and
                         the search-cluster router (ElasticsearchProxy)
  api/middleware.go    : Auth impersonation step, getApiKey, pathSlug

External capabilities (the schema package Validate and SetId, encoding/json
Unmarshal, the msg envelope parser, the publish pipeline) are parameters of
the embedded handlers, exactly as the spec treats them: opaque collaborators.
Machine integers are modeled as Int/Nat; request bodies as lists of byte
values; the possibly-nil request body as an Option.
-/

set_option linter.unusedVariables false

namespace WorldpingGw

/-- One metric record as this gateway sees it: the submitted name, the
publish-facing metric field, owning organization id, metric type, tags and
the content-derived identity field.  Only the fields the gateway touches are
modeled; the remaining schema fields ride along inside the opaque validate
and computeId capabilities. -/
structure MetricData where
  name : String
  metric : String
  orgId : Int
  mtype : String
  tags : List String
  id : String
  deriving DecidableEq, Repr

/-- An HTTP response as produced by ctx.JSON(status, body). -/
inductive Response where
  | json (status : Nat) (body : String)
  deriving DecidableEq, Repr

/-- Result of iterating a decoded batch: either an abort at the first record
rejected by the validate capability (with the amount added to the
metrics.http.rejected counter and the error message), or the final batch. -/
inductive BatchResult where
  | aborted (rejectedAdd : Nat) (errMsg : String)
  | done (batch : List MetricData)
  deriving DecidableEq, Repr

/-- Observable outcome of one ingestion handler call: the response written,
the batch handed to the publish capability (none when publish was not
invoked), the amounts added to the rejected and valid counters, and whether
the decoder (json Unmarshal, resp. the binary envelope parser) was invoked. -/
structure HandlerOutcome where
  response : Response
  published : Option (List MetricData)
  rejectedAdd : Nat
  validAdd : Nat
  decoderInvoked : Bool
  deriving DecidableEq, Repr

/-- The per-record normalization steps shared by all four loop bodies in
elasticsearch.go: m.Metric = m.Name; default Mtype to gauge; m.Tags = nil. -/
def normStep (m : MetricData) : MetricData :=
  let m1 := { m with metric := m.name }
  let m2 := if m1.mtype = "" then { m1 with mtype := "gauge" } else m1
  { m2 with tags := [] }

/-- The admin loop of metricsJson (lines 75..100) and metricsBinary
(lines 162..187).  Go range iterates the slice snapshot taken at loop entry,
so the loop walks exactly the originally decoded records; appends made by
the public-duplication branch land in the batch variable (visible to the
rejected-counter and to the final publish) but are never themselves
iterated.  Arguments: remaining snapshot, length of the decoded batch,
accumulator of processed originals (reversed), accumulator of appended
duplicates (reversed).

Per record: normalize, validate (abort adds the CURRENT batch length, i.e.
decoded length plus duplicates appended so far), m.SetId(), then the
public-duplication branch.  Note the source order there: public is copied
from m AFTER SetId, then m.OrgId (the ORIGINAL) is overwritten with
publicOrgId without recomputing its id, then public.SetId() recomputes the
id of the copy that still carries orgId -1, and the copy is appended. -/
def processAdmin (validate : MetricData → Option String) (computeId : MetricData → String)
    (publicOrg : Int) :
    List MetricData → Nat → List MetricData → List MetricData → BatchResult
  | [], _, acc, dups => BatchResult.done (acc.reverse ++ dups.reverse)
  | m :: rest, origLen, acc, dups =>
    let m3 := normStep m
    match validate m3 with
    | some e => BatchResult.aborted (origLen + dups.length) e
    | none =>
      let m4 := { m3 with id := computeId m3 }
      if m4.orgId = -1 ∧ publicOrg ≠ -1 then
        let m5 := { m4 with orgId := publicOrg }
        let pub2 := { m4 with id := computeId m4 }
        processAdmin validate computeId publicOrg rest origLen (m5 :: acc) (pub2 :: dups)
      else
        processAdmin validate computeId publicOrg rest origLen (m4 :: acc) dups

/-- The non-admin loop of metricsJson (lines 101..117) and metricsBinary
(lines 188..204): the organization is forced to the caller organization
before normalization; an abort adds the decoded batch length. -/
def processNonAdmin (validate : MetricData → Option String) (computeId : MetricData → String)
    (ctxOrg : Int) : List MetricData → Nat → List MetricData → BatchResult
  | [], _, acc => BatchResult.done acc.reverse
  | m :: rest, origLen, acc =>
    let m3 := normStep { m with orgId := ctxOrg }
    match validate m3 with
    | some e => BatchResult.aborted origLen e
    | none =>
      processNonAdmin validate computeId ctxOrg rest origLen ({ m3 with id := computeId m3 } :: acc)

/-- Dispatch on ctx.IsAdmin, starting both loops on the decoded batch. -/
def processBatch (validate : MetricData → Option String) (computeId : MetricData → String)
    (publicOrg : Int) (isAdmin : Bool) (ctxOrg : Int) (metrics : List MetricData) : BatchResult :=
  if isAdmin then processAdmin validate computeId publicOrg metrics metrics.length [] []
  else processNonAdmin validate computeId ctxOrg metrics metrics.length []

/-- metricsJson (elasticsearch.go lines 61..129).  body is the request body
(none models a nil Body, in which case the handler answers 400 without
decoding); bytes are whatever ioutil.ReadAll returned; a read error in this
path is only logged (readErr), processing continues with the bytes read.
unmarshal is the external json decode capability, publishErr the publish
capability (some e models a publish failure). -/
def metricsJson (unmarshal : List Nat → Except String (List MetricData))
    (validate : MetricData → Option String) (computeId : MetricData → String)
    (publicOrg : Int) (publishErr : List MetricData → Option String)
    (isAdmin : Bool) (ctxOrg : Int)
    (body : Option (List Nat)) (readErr : Option String) : HandlerOutcome :=
  match body with
  | some bytes =>
    match unmarshal bytes with
    | Except.error e =>
      ⟨Response.json 400 ("unable to parse request body. " ++ e), none, 0, 0, true⟩
    | Except.ok metrics =>
      match processBatch validate computeId publicOrg isAdmin ctxOrg metrics with
      | BatchResult.aborted r e => ⟨Response.json 400 e, none, r, 0, true⟩
      | BatchResult.done batch =>
        match publishErr batch with
        | some e => ⟨Response.json 500 e, some batch, 0, batch.length, true⟩
        | none => ⟨Response.json 200 "ok", some batch, 0, batch.length, true⟩
  | none => ⟨Response.json 400 ("no data included in request."), none, 0, 0, false⟩

/-- metricsBinary (elasticsearch.go lines 131..216).  bodyPresent models the
nil check on the raw request body; readResult the outcome of ioutil.ReadAll
on the (possibly snappy-wrapped) body, so a decompression failure surfaces
here as a read error and answers 500; initFromMsg models
msg.MetricData.InitFromMsg (the envelope parser, 500 on error) and
decodeMetricData models DecodeMetricData (the batch decoder, 500 on error). -/
def metricsBinary (initFromMsg : List Nat → Except String (List Nat))
    (decodeMetricData : List Nat → Except String (List MetricData))
    (validate : MetricData → Option String) (computeId : MetricData → String)
    (publicOrg : Int) (publishErr : List MetricData → Option String)
    (isAdmin : Bool) (ctxOrg : Int)
    (bodyPresent : Bool) (readResult : Except String (List Nat)) : HandlerOutcome :=
  if bodyPresent then
    match readResult with
    | Except.error e => ⟨Response.json 500 e, none, 0, 0, false⟩
    | Except.ok bytes =>
      match initFromMsg bytes with
      | Except.error e => ⟨Response.json 500 e, none, 0, 0, true⟩
      | Except.ok payload =>
        match decodeMetricData payload with
        | Except.error e => ⟨Response.json 500 e, none, 0, 0, true⟩
        | Except.ok metrics =>
          match processBatch validate computeId publicOrg isAdmin ctxOrg metrics with
          | BatchResult.aborted r e => ⟨Response.json 400 e, none, r, 0, true⟩
          | BatchResult.done batch =>
            match publishErr batch with
            | some e => ⟨Response.json 500 e, some batch, 0, batch.length, true⟩
            | none => ⟨Response.json 200 "ok", some batch, 0, batch.length, true⟩
  else ⟨Response.json 400 ("no data included in request."), none, 0, 0, false⟩

/-- Zero padding of fmt %02d for the month and day fields. -/
def pad2 (n : Nat) : String :=
  if n < 10 then "0" ++ toString n else toString n

/-- The index-of-the-day string fmt.Sprintf with layout name-%d-%02d-%02d,
built from the year, month and day read off the clock at request time. -/
def idxDate (indexName : String) (y : Int) (mo d : Nat) : String :=
  indexName ++ "-" ++ toString y ++ "-" ++ pad2 mo ++ "-" ++ pad2 d

/-- Outcome of the search router: either a short-circuit JSON response, or
the request is handed to elasticsearch.Proxy with the caller organization. -/
inductive ProxyOutcome where
  | json (status : Nat) (body : String)
  | proxied (orgId : Int)
  deriving DecidableEq, Repr

/-- ElasticsearchProxy (elasticsearch.go lines 10..23).  The year, month and
day are the values produced by the clock when the request is handled. -/
def elasticsearchProxy (indexName : String) (y : Int) (mo d : Nat)
    (method proxyPath : String) (orgId : Int) : ProxyOutcome :=
  if method = "GET" ∧ proxyPath = idxDate indexName y mo d ++ "/_stats" then
    ProxyOutcome.json 200 "ok"
  else if method = "POST" ∧ proxyPath = "_msearch" then
    ProxyOutcome.proxied orgId
  else
    ProxyOutcome.json 404 "Not Found"

/-- The identity produced by the auth capability: organization id and the
admin flag (auth.User, as used by middleware.go). -/
structure User where
  orgId : Int
  isAdmin : Bool
  deriving DecidableEq, Repr

/-- Model of strconv.ParseInt with base 10 and bitSize 64: an optional
leading sign followed by at least one decimal digit, with the value within
the signed 64 bit range; every other input is an error (none).  ParseInt
reports range overflow as an error, so overflow also maps to none. -/
def goParseInt64 (s : String) : Option Int :=
  let cs := s.data
  let p : Bool × List Char :=
    match cs with
    | '+' :: rest => (false, rest)
    | '-' :: rest => (true, rest)
    | _ => (false, cs)
  if p.2 = [] then none
  else if p.2.all Char.isDigit then
    let v : Nat := p.2.foldl (fun acc c => acc * 10 + (c.toNat - 48)) 0
    let i : Int := if p.1 then -(v : Int) else (v : Int)
    if -(2 ^ 63) ≤ i ∧ i ≤ 2 ^ 63 - 1 then some i else none
  else none

/-- The impersonation step of the Auth middleware (middleware.go lines
80..91): an admin whose X-Tsdb-Org header parses to a non-zero integer has
the organization id overridden; everyone else keeps the resolved identity.
An absent header is the empty string, which is what Header.Get returns. -/
def applyImpersonation (user : User) (header : String) : User :=
  if user.isAdmin then
    if header ≠ "" then
      match goParseInt64 header with
      | some v => if v ≠ 0 then { user with orgId := v } else user
      | none => user
    else user
  else user

/-- Replace every occurrence of a one-byte pattern, modeling the calls
strings.Replace(s, old, new, -1) in pathSlug where old is a single byte. -/
def replaceChar (old new : Char) : List Char → List Char
  | [] => []
  | c :: rest => (if c = old then new else c) :: replaceChar old new rest

/-- Strip one leading slash, modeling strings.TrimPrefix with the one-byte
slash pattern. -/
def trimLeadingSlash (l : List Char) : List Char :=
  match l with
  | [] => []
  | c :: rest => if c = '/' then rest else c :: rest

/-- The inner copy loop of the default case of path.Clean: copy bytes of the
current element into the output buffer until a slash or the end of input.
The output buffer is kept reversed (most recent byte first).  Returns the
remaining input (starting at the slash, if any) and the new buffer. -/
def copyElemAux : List Char → List Char → List Char × List Char
  | [], out => ([], out)
  | c :: rest, out => if c = '/' then (c :: rest, out) else copyElemAux rest (c :: out)

/-- The backtracking loop of the dotdot case of path.Clean: pop buffer bytes
one at a time, stopping after popping a slash or upon reaching the dotdot
barrier.  The buffer is reversed, so popping is taking the tail. -/
def backtrack (dotdot : Nat) : List Char → List Char
  | [] => []
  | c :: rest => if c = '/' then rest else if dotdot < rest.length then backtrack dotdot rest else rest

/-- The main loop of path.Clean (Go stdlib path.go), element by element over
the remaining input.  fuel bounds the recursion; the callers pass the input
length, which suffices because every step consumes at least one byte.
Cases in source order: empty element, dot element, dotdot element
(backtrack when the buffer extends past the dotdot barrier, else append a
literal dotdot when not rooted), and the default case which appends a
separating slash when needed and copies the element. -/
def cleanCore (rooted : Bool) : Nat → List Char → List Char → Nat → List Char
  | 0, _, out, _ => out
  | _ + 1, [], out, _ => out
  | fuel + 1, c :: rest, out, dotdot =>
    if c = '/' then cleanCore rooted fuel rest out dotdot
    else if c = '.' ∧ (rest = [] ∨ rest.head? = some ('/')) then
      cleanCore rooted fuel rest out dotdot
    else if c = '.' ∧ rest.head? = some ('.') ∧ (rest.tail = [] ∨ rest.tail.head? = some ('/')) then
      (if dotdot < out.length then cleanCore rooted fuel rest.tail (backtrack dotdot out) dotdot
       else if rooted = false then
         (let out1 := if 0 < out.length then '/' :: out else out
          let out2 := '.' :: '.' :: out1
          cleanCore rooted fuel rest.tail out2 out2.length)
       else cleanCore rooted fuel rest.tail out dotdot)
    else
      (let out1 :=
        if (rooted = true ∧ out.length ≠ 1) ∨ (rooted = false ∧ out.length ≠ 0) then '/' :: out
        else out
       let res := copyElemAux rest (c :: out1)
       cleanCore rooted fuel res.1 res.2 dotdot)

/-- path.Clean on the byte list of the path.  The empty path maps to a dot;
a rooted path starts the buffer with a slash and the dotdot barrier at one;
an empty buffer at the end maps to a dot; otherwise the buffer (reversed
back into input order) is the result. -/
def pathCleanList (l : List Char) : List Char :=
  match l with
  | [] => ['.']
  | c :: rest =>
    let out :=
      if c = '/' then cleanCore true (rest.length + 1) rest ['/'] 1
      else cleanCore false (rest.length + 1) (c :: rest) [] 0
    if out.length = 0 then ['.'] else out.reverse

/-- path.Clean at the string boundary. -/
def pathClean (p : String) : String :=
  String.mk (pathCleanList p.data)

/-- pathSlug on the byte list: clean the path, strip the leading slash, map
an empty result to the root token, then replace slashes and dots with
underscores (inner Replace on slashes first, as in the source). -/
def pathSlugList (l : List Char) : List Char :=
  let slug := trimLeadingSlash (pathCleanList l)
  let slug2 := if slug = [] then ['r', 'o', 'o', 't'] else slug
  replaceChar '.' '_' (replaceChar '/' '_' slug2)

/-- pathSlug (middleware.go lines 190..196) at the string boundary. -/
def pathSlug (p : String) : String :=
  String.mk (pathSlugList p.data)

/-- Value of one byte of the standard base64 alphabet. -/
def b64Index (c : Char) : Option Nat :=
  if 'A' ≤ c ∧ c ≤ 'Z' then some (c.toNat - 65)
  else if 'a' ≤ c ∧ c ≤ 'z' then some (c.toNat - 97 + 26)
  else if '0' ≤ c ∧ c ≤ '9' then some (c.toNat - 48 + 52)
  else if c = '+' then some 62
  else if c = '/' then some 63
  else none

/-- Model of base64.StdEncoding.DecodeString: four-byte groups, each
decoding to three bytes, with padding allowed only to end the final group;
inputs that are not a whole number of groups, or that contain a byte
outside the alphabet, are errors (none). -/
def b64DecodeChunks : List Char → Option (List Nat)
  | [] => some []
  | c1 :: c2 :: c3 :: c4 :: rest => do
    let v1 ← b64Index c1
    let v2 ← b64Index c2
    if c3 = '=' ∧ c4 = '=' ∧ rest = [] then
      some [v1 * 4 + v2 / 16]
    else do
      let v3 ← b64Index c3
      if c4 = '=' ∧ rest = [] then
        some [v1 * 4 + v2 / 16, v2 % 16 * 16 + v3 / 4]
      else do
        let v4 ← b64Index c4
        let tl ← b64DecodeChunks rest
        some ([v1 * 4 + v2 / 16, v2 % 16 * 16 + v3 / 4, v3 % 4 * 64 + v4] ++ tl)
  | _ => none

/-- String form of the base64 decoder. -/
def base64DecodeString (s : String) : Option (List Nat) :=
  b64DecodeChunks s.data

/-- strings.SplitN(s, sep, 2) for a one-byte separator: split at the first
occurrence, so the result has one element (no separator present) or two. -/
def splitN2Aux (sep : Char) : List Char → List Char → List String
  | [], acc => [String.mk acc.reverse]
  | c :: rest, acc =>
    if c = sep then [String.mk acc.reverse, String.mk rest]
    else splitN2Aux sep rest (c :: acc)

def splitN2 (sep : Char) (s : String) : List String :=
  splitN2Aux sep s.data []

/-- Result of getApiKey: a credential (possibly empty, which the caller
treats as unauthenticated), a decode error, or the out-of-bounds list index
that the source reaches at userAndPass[1] when the split produced a single
element; in the running program that index panics. -/
inductive ApiKeyResult where
  | key (k : String)
  | decodeErr
  | outOfRange
  deriving DecidableEq, Repr

/-- getApiKey (middleware.go lines 94..115).  Bearer headers return the
token; Basic headers base64-decode the remainder and, when the user part of
the colon split equals api_key, return element 1 of the split, which does
not exist when the decoded string carries no colon. -/
def getApiKey (authHeader : String) : ApiKeyResult :=
  match splitN2 ' ' authHeader with
  | [p0, p1] =>
    if p0 = "Bearer" then ApiKeyResult.key p1
    else if p0 = "Basic" then
      match base64DecodeString p1 with
      | none => ApiKeyResult.decodeErr
      | some bytes =>
        match splitN2 ':' (String.mk (bytes.map Char.ofNat)) with
        | [u, pass] => if u = "api_key" then ApiKeyResult.key pass else ApiKeyResult.key ""
        | [u] => if u = "api_key" then ApiKeyResult.outOfRange else ApiKeyResult.key ""
        | _ => ApiKeyResult.key ""
    else ApiKeyResult.key ""
  | _ => ApiKeyResult.key ""

/-!  Helper lemmas shared by the claim theorems below. -/

theorem normStep_orgId (m : MetricData) : (normStep m).orgId = m.orgId := by
  simp only [normStep]
  split <;> rfl

theorem processNonAdmin_done_orgs (v : MetricData → Option String) (ci : MetricData → String)
    (corg : Int) :
    ∀ (l : List MetricData) (n : Nat) (acc b : List MetricData),
      processNonAdmin v ci corg l n acc = BatchResult.done b →
      (∀ m ∈ acc, m.orgId = corg) → ∀ m ∈ b, m.orgId = corg := by
  intro l
  induction l with
  | nil =>
    intro n acc b h hacc m hm
    simp only [processNonAdmin, BatchResult.done.injEq] at h
    subst h
    exact hacc m (List.mem_reverse.mp hm)
  | cons mhd rest ih =>
    intro n acc b h hacc
    simp only [processNonAdmin] at h
    cases hv : v (normStep { mhd with orgId := corg }) with
    | some e => rw [hv] at h; exact absurd h (by simp)
    | none =>
      rw [hv] at h
      refine ih n _ b h ?_
      intro m hm
      rcases List.mem_cons.mp hm with h1 | h2
      · subst h1
        show (normStep { mhd with orgId := corg }).orgId = corg
        rw [normStep_orgId]
      · exact hacc m h2

theorem metricsJson_pub_done {u : List Nat → Except String (List MetricData)}
    {v : MetricData → Option String} {ci : MetricData → String} {po : Int}
    {pr : List MetricData → Option String} {adm : Bool} {corg : Int}
    {body : Option (List Nat)} {rerr : Option String} {b : List MetricData}
    (h : (metricsJson u v ci po pr adm corg body rerr).published = some b) :
    ∃ l, processBatch v ci po adm corg l = BatchResult.done b := by
  cases body with
  | none => simp [metricsJson] at h
  | some bytes =>
    cases hu : u bytes with
    | error e => simp [metricsJson, hu] at h
    | ok l =>
      cases hp : processBatch v ci po adm corg l with
      | aborted r e => simp [metricsJson, hu, hp] at h
      | done batch =>
        refine ⟨l, ?_⟩
        cases hpr : pr batch with
        | some e => simp [metricsJson, hu, hp, hpr] at h; rw [hp, h]
        | none => simp [metricsJson, hu, hp, hpr] at h; rw [hp, h]

theorem metricsBinary_pub_done {ifm : List Nat → Except String (List Nat)}
    {dmd : List Nat → Except String (List MetricData)}
    {v : MetricData → Option String} {ci : MetricData → String} {po : Int}
    {pr : List MetricData → Option String} {adm : Bool} {corg : Int}
    {bp : Bool} {rr : Except String (List Nat)} {b : List MetricData}
    (h : (metricsBinary ifm dmd v ci po pr adm corg bp rr).published = some b) :
    ∃ l, processBatch v ci po adm corg l = BatchResult.done b := by
  cases bp with
  | false => simp [metricsBinary] at h
  | true =>
    cases rr with
    | error e => simp [metricsBinary] at h
    | ok bytes =>
      cases hi : ifm bytes with
      | error e => simp [metricsBinary, hi] at h
      | ok payload =>
        cases hd : dmd payload with
        | error e => simp [metricsBinary, hi, hd] at h
        | ok l =>
          cases hp : processBatch v ci po adm corg l with
          | aborted r e => simp [metricsBinary, hi, hd, hp] at h
          | done batch =>
            refine ⟨l, ?_⟩
            cases hpr : pr batch with
            | some e => simp [metricsBinary, hi, hd, hp, hpr] at h; rw [hp, h]
            | none => simp [metricsBinary, hi, hd, hp, hpr] at h; rw [hp, h]

theorem processNonAdmin_abort_len (v : MetricData → Option String) (ci : MetricData → String)
    (corg : Int) :
    ∀ (l : List MetricData) (n : Nat) (acc : List MetricData) (r : Nat) (e : String),
      processNonAdmin v ci corg l n acc = BatchResult.aborted r e → r = n := by
  intro l
  induction l with
  | nil => intro n acc r e h; simp [processNonAdmin] at h
  | cons mhd rest ih =>
    intro n acc r e h
    simp only [processNonAdmin] at h
    cases hv : v (normStep { mhd with orgId := corg }) with
    | some e2 =>
      rw [hv] at h
      cases h
      rfl
    | none => rw [hv] at h; exact ih n _ r e h

theorem processAdmin_abort_ge (v : MetricData → Option String) (ci : MetricData → String)
    (po : Int) :
    ∀ (l : List MetricData) (n : Nat) (acc dups : List MetricData) (r : Nat) (e : String),
      processAdmin v ci po l n acc dups = BatchResult.aborted r e → ∃ k, r = n + k := by
  intro l
  induction l with
  | nil => intro n acc dups r e h; simp [processAdmin] at h
  | cons mhd rest ih =>
    intro n acc dups r e h
    simp only [processAdmin] at h
    cases hv : v (normStep mhd) with
    | some e2 =>
      rw [hv] at h
      cases h
      exact ⟨dups.length, rfl⟩
    | none =>
      rw [hv] at h
      by_cases hc : ({ normStep mhd with id := ci (normStep mhd) } : MetricData).orgId = -1 ∧ po ≠ -1
      · rw [if_pos hc] at h
        exact ih n _ _ r e h
      · rw [if_neg hc] at h
        exact ih n _ _ r e h

theorem cleanCore_nil (rooted : Bool) (fuel : Nat) (out : List Char) (dd : Nat) :
    cleanCore rooted fuel [] out dd = out := by
  cases fuel <;> rfl

theorem copyElemAux_no_slash :
    ∀ (l out : List Char), (∀ x ∈ l, x ≠ '/') →
      copyElemAux l out = ([], l.reverse ++ out) := by
  intro l
  induction l with
  | nil => intro out h; rfl
  | cons c rest ih =>
    intro out h
    have hc : c ≠ '/' := h c (List.mem_cons_self c rest)
    simp only [copyElemAux, if_neg hc]
    rw [ih (c :: out) (fun x hx => h x (List.mem_cons_of_mem c hx))]
    simp

theorem cleanCore_single (c : Char) (rest : List Char)
    (hc1 : c ≠ '/') (hc2 : c ≠ '.') (hr : ∀ x ∈ rest, x ≠ '/') :
    cleanCore false (rest.length + 1) (c :: rest) [] 0 = (c :: rest).reverse := by
  rw [cleanCore]
  rw [if_neg hc1]
  rw [if_neg (fun h => hc2 h.1)]
  rw [if_neg (fun h => hc2 h.1)]
  simp only []
  rw [if_neg (by simp)]
  rw [copyElemAux_no_slash rest [c] hr]
  simp only []
  rw [cleanCore_nil]
  simp

theorem pathCleanList_single (c : Char) (rest : List Char)
    (hc1 : c ≠ '/') (hc2 : c ≠ '.') (hr : ∀ x ∈ rest, x ≠ '/') :
    pathCleanList (c :: rest) = c :: rest := by
  simp only [pathCleanList]
  rw [if_neg hc1, cleanCore_single c rest hc1 hc2 hr]
  rw [if_neg (by simp)]
  simp

theorem mem_replaceChar {old new : Char} :
    ∀ {l : List Char} {x : Char}, x ∈ replaceChar old new l → x = new ∨ (x ∈ l ∧ x ≠ old) := by
  intro l
  induction l with
  | nil => intro x h; simp [replaceChar] at h
  | cons c rest ih =>
    intro x h
    simp only [replaceChar, List.mem_cons] at h
    rcases h with h1 | h2
    · by_cases hc : c = old
      · rw [if_pos hc] at h1; exact Or.inl h1
      · rw [if_neg hc] at h1
        refine Or.inr ⟨?_, ?_⟩
        · rw [h1]; exact List.mem_cons_self c rest
        · rw [h1]; exact hc
    · rcases ih h2 with h3 | ⟨h4, h5⟩
      · exact Or.inl h3
      · exact Or.inr ⟨List.mem_cons_of_mem c h4, h5⟩

theorem replaceChar_eq_self {old new : Char} :
    ∀ {l : List Char}, (∀ x ∈ l, x ≠ old) → replaceChar old new l = l := by
  intro l
  induction l with
  | nil => intro h; rfl
  | cons c rest ih =>
    intro h
    have hc : c ≠ old := h c (List.mem_cons_self c rest)
    simp only [replaceChar, if_neg hc]
    rw [ih (fun x hx => h x (List.mem_cons_of_mem c hx))]

theorem length_replaceChar (old new : Char) :
    ∀ l : List Char, (replaceChar old new l).length = l.length := by
  intro l
  induction l with
  | nil => rfl
  | cons c rest ih => simp only [replaceChar, List.length_cons, ih]

theorem pathSlugList_fixed (L : List Char) (h1 : L ≠ [])
    (h2 : ∀ x ∈ L, x ≠ '/' ∧ x ≠ '.') : pathSlugList L = L := by
  cases L with
  | nil => exact absurd rfl h1
  | cons c rest =>
    have hc : c ≠ '/' := (h2 c (List.mem_cons_self c rest)).1
    have hcd : c ≠ '.' := (h2 c (List.mem_cons_self c rest)).2
    have hrest : ∀ x ∈ rest, x ≠ '/' := fun x hx => (h2 x (List.mem_cons_of_mem c hx)).1
    simp only [pathSlugList]
    rw [pathCleanList_single c rest hc hcd hrest]
    simp only [trimLeadingSlash, if_neg hc]
    rw [if_neg (by simp)]
    rw [replaceChar_eq_self (fun x hx => (h2 x hx).1)]
    rw [replaceChar_eq_self (fun x hx => (h2 x hx).2)]

theorem pathSlugList_chars (l : List Char) :
    pathSlugList l ≠ [] ∧ ∀ x ∈ pathSlugList l, x ≠ '/' ∧ x ≠ '.' := by
  simp only [pathSlugList]
  constructor
  · intro hnil
    have hlen := congrArg List.length hnil
    rw [length_replaceChar, length_replaceChar] at hlen
    by_cases hs : trimLeadingSlash (pathCleanList l) = []
    · rw [if_pos hs] at hlen
      simp at hlen
    · rw [if_neg hs] at hlen
      simp at hlen
      exact hs hlen
  · intro x hx
    rcases mem_replaceChar hx with h1 | ⟨h2, h3⟩
    · constructor
      · rw [h1]; decide
      · rw [h1]; decide
    · rcases mem_replaceChar h2 with h4 | ⟨h5, h6⟩
      · constructor
        · rw [h4]; decide
        · rw [h4]; decide
      · exact ⟨h6, h3⟩

theorem goParseInt64_empty : goParseInt64 "" = none := rfl

/-!  Claim theorems. -/

/-- C1 (code evaluation at the failing input): an admin batch holding one
record with the no-organization sentinel, with the public organization
configured as 5 and an identity capability that records the organization id,
is published as two records: the ORIGINAL record with its organization
overwritten to 5 but its identity still the one computed while the
organization was -1, and the appended duplicate still carrying organization
-1.  The claim (and the comment in the source) say the duplicate gets the
public organization with a recomputed identity while the original keeps the
sentinel; the code does the reverse, leaving no record whose identity
matches the public organization. -/
theorem c1_public_duplication_code_behavior :
    metricsJson (fun _ => Except.ok [⟨"x", "", -1, "", [], ""⟩]) (fun _ => none)
      (fun m => toString m.orgId) 5 (fun _ => none) true 7 (some []) none =
    ⟨Response.json 200 "ok",
     some [⟨"x", "x", 5, "gauge", [], "-1"⟩, ⟨"x", "x", -1, "gauge", [], "-1"⟩], 0, 2, true⟩ := by
  decide

/-- C2: for every non-admin caller, every batch that reaches the publish
capability (through either the json or the binary handler) consists of
records whose organization id equals the caller organization id, whatever
organizations the submitted body carried. -/
theorem c2_nonadmin_org_forced
    (u : List Nat → Except String (List MetricData))
    (ifm : List Nat → Except String (List Nat))
    (dmd : List Nat → Except String (List MetricData))
    (v : MetricData → Option String) (ci : MetricData → String) (po : Int)
    (pr : List MetricData → Option String) (corg : Int)
    (body : Option (List Nat)) (rerr : Option String)
    (bp : Bool) (rr : Except String (List Nat)) (b : List MetricData)
    (h : (metricsJson u v ci po pr false corg body rerr).published = some b
       ∨ (metricsBinary ifm dmd v ci po pr false corg bp rr).published = some b) :
    ∀ m ∈ b, m.orgId = corg := by
  have hdone : ∃ l, processBatch v ci po false corg l = BatchResult.done b := by
    rcases h with h | h
    · exact metricsJson_pub_done h
    · exact metricsBinary_pub_done h
  obtain ⟨l, hl⟩ := hdone
  simp only [processBatch] at hl
  rw [if_neg (by simp)] at hl
  exact processNonAdmin_done_orgs v ci corg l l.length [] b hl
    (fun m hm => absurd hm (List.not_mem_nil m))

/-- Witness for C2: a caller of organization 7 submitting a record claiming
organization 42 publishes a single record forced to organization 7. -/
theorem c2_nonadmin_org_forced_witness :
    (⟨"x", "x", 7, "gauge", [], "i"⟩ : MetricData).orgId = 7 := by
  have := c2_nonadmin_org_forced
    (fun _ => Except.ok [⟨"x", "", 42, "", [], ""⟩]) (fun bs => Except.ok bs)
    (fun _ => Except.ok []) (fun _ => none) (fun _ => "i") (-1) (fun _ => none) 7
    (some []) none false (Except.ok []) [⟨"x", "x", 7, "gauge", [], "i"⟩]
    (Or.inl (by decide))
  exact this _ (List.mem_cons_self _ _)

/-- Counterexample for C3: with a validate capability that accepts records
with an empty identity field and rejects any record whose identity is
already set, an admin batch of one sentinel record finishes as a done batch
of exactly two records, although the appended duplicate (identity already
set at append time) is rejected by validate.  Were the duplicate processed
by the iteration as the claim states, the batch would abort with 400, and
were it subject to the duplication check, a further copy would be appended;
neither happens, because the Go range loop iterates the snapshot taken at
loop entry. -/
theorem c3_duplicate_not_revalidated_cex :
    processAdmin (fun m => if m.id = "" then none else some ("duplicate rejected"))
      (fun _ => "ID") 5 [⟨"x", "", -1, "", [], ""⟩] 1 [] [] =
      BatchResult.done [⟨"x", "x", 5, "gauge", [], "ID"⟩, ⟨"x", "x", -1, "gauge", [], "ID"⟩]
    ∧ (fun (m : MetricData) => if m.id = "" then none else some ("duplicate rejected"))
        ⟨"x", "x", -1, "gauge", [], "ID"⟩ = some ("duplicate rejected") := by
  decide

/-- C3 as amended: the appended duplicate is NOT processed by the batch
iteration.  For any capabilities, any single-record admin batch that
triggers the public-duplication branch ends as exactly the two records
formed at append time, even when validate rejects the duplicate (h4): the
duplicate is neither re-validated nor subjected to the duplication check,
and its identity is the one computed once at append time. -/
theorem c3_duplicate_published_unprocessed
    (v : MetricData → Option String) (ci : MetricData → String) (po : Int)
    (m : MetricData) (e : String)
    (h1 : v (normStep m) = none) (h2 : m.orgId = -1) (h3 : po ≠ -1)
    (h4 : v { normStep m with id := ci (normStep m) } = some e) :
    processAdmin v ci po [m] 1 [] [] =
      BatchResult.done
        [{ normStep m with id := ci (normStep m), orgId := po },
         { normStep m with id := ci { normStep m with id := ci (normStep m) } }] := by
  simp only [processAdmin]
  rw [h1]
  rw [if_pos ⟨(normStep_orgId m).trans h2, h3⟩]
  simp [processAdmin]

/-- Witness for the amended C3 at a concrete batch and capabilities. -/
theorem c3_duplicate_published_unprocessed_witness :
    processAdmin (fun m => if m.id = "" then none else some ("duplicate rejected"))
      (fun _ => "ID2") 5 [⟨"y", "", -1, "", [], ""⟩] 1 [] [] =
      BatchResult.done [⟨"y", "y", 5, "gauge", [], "ID2"⟩, ⟨"y", "y", -1, "gauge", [], "ID2"⟩] := by
  have := c3_duplicate_published_unprocessed
    (fun m => if m.id = "" then none else some ("duplicate rejected")) (fun _ => "ID2") 5
    ⟨"y", "", -1, "", [], ""⟩ "duplicate rejected" (by decide) (by decide) (by decide) (by decide)
  exact this

/-- Counterexample for C4: an admin batch of two decoded records, the first
valid and triggering a public duplicate, the second invalid, aborts with the
rejected counter incremented by 3 (decoded size 2 plus the one duplicate
appended before the invalid record), not by the submitted batch size 2 as
the claim states. -/
theorem c4_rejected_count_cex :
    metricsJson (fun _ => Except.ok [⟨"g", "", -1, "", [], ""⟩, ⟨"bad", "", -1, "", [], ""⟩])
      (fun m => if m.name = "bad" then some ("invalid metric") else none)
      (fun m => toString m.orgId) 5 (fun _ => none) true 1 (some []) none =
      ⟨Response.json 400 ("invalid metric"), none, 3, 0, true⟩
    ∧ ([⟨"g", "", -1, "", [], ""⟩, ⟨"bad", "", -1, "", [], ""⟩] : List MetricData).length = 2 := by
  decide

/-- C4 as amended: when the batch iteration aborts on an invalid record,
both handlers answer 400 carrying the validation error, publish nothing and
add zero to the valid counter; the rejected counter increases by the length
of the batch variable at abort time, which is the decoded batch size plus
the number of public duplicates appended before the invalid record was
reached, and exactly the decoded size for non-admin callers. -/
theorem c4_abort_behavior
    (u : List Nat → Except String (List MetricData))
    (ifm : List Nat → Except String (List Nat))
    (dmd : List Nat → Except String (List MetricData))
    (v : MetricData → Option String) (ci : MetricData → String) (po : Int)
    (pr : List MetricData → Option String) (adm : Bool) (corg : Int)
    (bytesJ bytesB payload : List Nat) (rerr : Option String)
    (l : List MetricData) (r : Nat) (e : String)
    (hu : u bytesJ = Except.ok l)
    (hi : ifm bytesB = Except.ok payload) (hd : dmd payload = Except.ok l)
    (hp : processBatch v ci po adm corg l = BatchResult.aborted r e) :
    metricsJson u v ci po pr adm corg (some bytesJ) rerr =
      ⟨Response.json 400 e, none, r, 0, true⟩
    ∧ metricsBinary ifm dmd v ci po pr adm corg true (Except.ok bytesB) =
      ⟨Response.json 400 e, none, r, 0, true⟩
    ∧ (∃ k, r = l.length + k) ∧ (adm = false → r = l.length) := by
  refine ⟨?_, ?_, ?_, ?_⟩
  · simp [metricsJson, hu, hp]
  · simp [metricsBinary, hi, hd, hp]
  · cases adm with
    | false =>
      simp only [processBatch] at hp
      rw [if_neg (by simp)] at hp
      exact ⟨0, by simpa using processNonAdmin_abort_len v ci corg l l.length [] r e hp⟩
    | true =>
      simp only [processBatch] at hp
      rw [if_pos trivial] at hp
      exact processAdmin_abort_ge v ci po l l.length [] [] r e hp
  · intro hadm
    subst hadm
    simp only [processBatch] at hp
    rw [if_neg (by simp)] at hp
    exact processNonAdmin_abort_len v ci corg l l.length [] r e hp

/-- Witness for the amended C4: a one-record invalid non-admin batch
answers 400 with the validation error, rejected counter plus one, nothing
published. -/
theorem c4_abort_behavior_witness :
    metricsJson (fun _ => Except.ok [⟨"bad", "", 0, "", [], ""⟩])
      (fun m => if m.name = "bad" then some ("invalid metric") else none)
      (fun _ => "i") (-1) (fun _ => none) false 7 (some []) none =
      ⟨Response.json 400 ("invalid metric"), none, 1, 0, true⟩ := by
  have := c4_abort_behavior
    (fun _ => Except.ok [⟨"bad", "", 0, "", [], ""⟩]) (fun bs => Except.ok bs)
    (fun _ => Except.ok [⟨"bad", "", 0, "", [], ""⟩])
    (fun m => if m.name = "bad" then some ("invalid metric") else none)
    (fun _ => "i") (-1) (fun _ => none) false 7 [] [] [] none
    [⟨"bad", "", 0, "", [], ""⟩] 1 "invalid metric" rfl rfl rfl (by decide)
  exact this.1

/-- Counterexample for C5: a malformed binary envelope is a parse-level
failure, yet the binary handler answers 500, not the 400 the claim
requires for parse-level failures.  Nothing is published. -/
theorem c5_binary_parse_status_cex :
    metricsBinary (fun _ => Except.error ("payload not metricData"))
      (fun _ => Except.ok ([] : List MetricData)) (fun _ => none) (fun _ => "i") (-1)
      (fun _ => none) false 1 true (Except.ok [1]) =
      ⟨Response.json 500 ("payload not metricData"), none, 0, 0, true⟩ := by
  decide

/-- C5 as amended: a json parse failure answers 400 with the parse error;
in the binary path an unreadable body (including decompression failure), a
malformed envelope and a malformed record batch all answer 500 with the
underlying error; in every such case the publish capability is not invoked
and no counter moves. -/
theorem c5_failure_responses
    (u : List Nat → Except String (List MetricData))
    (ifm : List Nat → Except String (List Nat))
    (dmd : List Nat → Except String (List MetricData))
    (v : MetricData → Option String) (ci : MetricData → String) (po : Int)
    (pr : List MetricData → Option String) (adm : Bool) (corg : Int)
    (bytesJ bytesB bytesB2 payload : List Nat) (rerr : Option String)
    (e1 e2 e3 e4 : String)
    (h1 : u bytesJ = Except.error e1)
    (h2 : ifm bytesB = Except.error e3)
    (h3 : ifm bytesB2 = Except.ok payload) (h4 : dmd payload = Except.error e4) :
    metricsJson u v ci po pr adm corg (some bytesJ) rerr =
      ⟨Response.json 400 ("unable to parse request body. " ++ e1), none, 0, 0, true⟩
    ∧ metricsBinary ifm dmd v ci po pr adm corg true (Except.error e2) =
      ⟨Response.json 500 e2, none, 0, 0, false⟩
    ∧ metricsBinary ifm dmd v ci po pr adm corg true (Except.ok bytesB) =
      ⟨Response.json 500 e3, none, 0, 0, true⟩
    ∧ metricsBinary ifm dmd v ci po pr adm corg true (Except.ok bytesB2) =
      ⟨Response.json 500 e4, none, 0, 0, true⟩ := by
  refine ⟨?_, ?_, ?_, ?_⟩
  · simp [metricsJson, h1]
  · simp [metricsBinary]
  · simp [metricsBinary, h2]
  · simp [metricsBinary, h3, h4]

/-- Witness for the amended C5 at concrete failing capabilities. -/
theorem c5_failure_responses_witness :
    metricsJson (fun _ => Except.error ("bad json")) (fun _ => none) (fun _ => "i") (-1)
      (fun _ => none) false 7 (some []) none =
      ⟨Response.json 400 ("unable to parse request body. bad json"), none, 0, 0, true⟩ := by
  have := c5_failure_responses
    (fun _ => Except.error ("bad json"))
    (fun bs => if bs = [] then Except.error ("bad envelope") else Except.ok [])
    (fun _ => Except.error ("bad batch")) (fun _ => none) (fun _ => "i") (-1)
    (fun _ => none) false 7 [] [] [1] [] none
    "bad json" "read failed" "bad envelope" "bad batch" rfl rfl rfl rfl
  exact this.1

/-- Counterexample for C6: a present but zero-length body is handed to the
decoder (decoderInvoked is true) and, with the json capability failing on
empty input the way encoding/json does, the answer is the 400 parse-error
message, not the no-data message the claim requires for empty bodies.  The
no-data branch is taken only when the body is absent (nil). -/
theorem c6_empty_body_cex :
    metricsJson
      (fun bs => if bs = [] then Except.error ("unexpected end of JSON input") else Except.ok [])
      (fun _ => none) (fun _ => "i") (-1) (fun _ => none) false 1 (some []) none =
      ⟨Response.json 400 ("unable to parse request body. unexpected end of JSON input"),
       none, 0, 0, true⟩ := by
  decide

/-- C6 as amended: a request whose body is ABSENT (nil) answers 400 with
the no-data message without invoking the decoder, in both handlers; a
present body, even zero-length, always reaches the decoder. -/
theorem c6_nil_body_behavior
    (u : List Nat → Except String (List MetricData))
    (ifm : List Nat → Except String (List Nat))
    (dmd : List Nat → Except String (List MetricData))
    (v : MetricData → Option String) (ci : MetricData → String) (po : Int)
    (pr : List MetricData → Option String) (adm : Bool) (corg : Int)
    (rerr : Option String) (rr : Except String (List Nat)) (bytes : List Nat) :
    metricsJson u v ci po pr adm corg none rerr =
      ⟨Response.json 400 ("no data included in request."), none, 0, 0, false⟩
    ∧ metricsBinary ifm dmd v ci po pr adm corg false rr =
      ⟨Response.json 400 ("no data included in request."), none, 0, 0, false⟩
    ∧ (metricsJson u v ci po pr adm corg (some bytes) rerr).decoderInvoked = true := by
  refine ⟨?_, ?_, ?_⟩
  · rfl
  · simp [metricsBinary]
  cases hu : u bytes with
  | error e => simp [metricsJson, hu]
  | ok l =>
    cases hp : processBatch v ci po adm corg l with
    | aborted r e => simp [metricsJson, hu, hp]
    | done batch =>
      cases hpr : pr batch with
      | some e => simp [metricsJson, hu, hp, hpr]
      | none => simp [metricsJson, hu, hp, hpr]

/-- C7: an admin whose impersonation header parses to a non-zero integer
gets the organization override; a non-admin is never affected by the
header; an admin with an absent (empty), unparseable or zero-valued header
keeps the resolved organization. -/
theorem c7_impersonation (user : User) (hdr : String) :
    (user.isAdmin = true → ∀ v : Int, goParseInt64 hdr = some v → v ≠ 0 →
      applyImpersonation user hdr = { user with orgId := v })
    ∧ (user.isAdmin = false → applyImpersonation user hdr = user)
    ∧ (user.isAdmin = true →
        hdr = "" ∨ goParseInt64 hdr = none ∨ goParseInt64 hdr = some 0 →
        applyImpersonation user hdr = user) := by
  refine ⟨?_, ?_, ?_⟩
  · intro ha v hv hvne
    have hne : hdr ≠ "" := by
      intro h
      rw [h, goParseInt64_empty] at hv
      exact Option.noConfusion hv
    simp [applyImpersonation, ha, hne, hv, hvne]
  · intro ha
    simp [applyImpersonation, ha]
  · intro ha hcase
    rcases hcase with h | h | h
    · simp [applyImpersonation, ha, h]
    · by_cases hne : hdr = ""
      · simp [applyImpersonation, ha, hne]
      · simp [applyImpersonation, ha, hne, h]
    · by_cases hne : hdr = ""
      · simp [applyImpersonation, ha, hne]
      · simp [applyImpersonation, ha, hne, h]

/-- Witness for C7 at a concrete admin override, a non-admin, and an admin
with an unparseable header. -/
theorem c7_impersonation_witness :
    applyImpersonation ⟨7, true⟩ ("42") = ⟨42, true⟩
    ∧ applyImpersonation ⟨7, false⟩ ("42") = ⟨7, false⟩
    ∧ applyImpersonation ⟨7, true⟩ ("abc") = ⟨7, true⟩ := by
  refine ⟨?_, ?_, ?_⟩
  · exact (c7_impersonation ⟨7, true⟩ ("42")).1 rfl 42 (by decide) (by decide)
  · exact (c7_impersonation ⟨7, false⟩ ("42")).2.1 rfl
  · exact (c7_impersonation ⟨7, true⟩ ("abc")).2.2 rfl (Or.inr (Or.inl (by decide)))

/-- C8: a GET for the stats path of the index of the day answers 200 ok
without reaching the proxy capability (the outcome is a json response, not
a proxied one); a POST to the msearch path is handed to the proxy with the
caller organization; every other method and path pair answers 404. -/
theorem c8_proxy_routing (indexName : String) (y : Int) (mo d : Nat)
    (method p : String) (org : Int) :
    (method = "GET" → p = idxDate indexName y mo d ++ "/_stats" →
      elasticsearchProxy indexName y mo d method p org = ProxyOutcome.json 200 "ok")
    ∧ (method = "POST" → p = "_msearch" →
      elasticsearchProxy indexName y mo d method p org = ProxyOutcome.proxied org)
    ∧ (¬(method = "GET" ∧ p = idxDate indexName y mo d ++ "/_stats") →
       ¬(method = "POST" ∧ p = "_msearch") →
      elasticsearchProxy indexName y mo d method p org = ProxyOutcome.json 404 "Not Found") := by
  refine ⟨?_, ?_, ?_⟩
  · intro h1 h2
    simp only [elasticsearchProxy]
    rw [if_pos ⟨h1, h2⟩]
  · intro h1 h2
    subst h1; subst h2
    simp [elasticsearchProxy]
  · intro h1 h2
    simp only [elasticsearchProxy]
    rw [if_neg h1, if_neg h2]

/-- Witness for C8 at a concrete index name and date. -/
theorem c8_proxy_routing_witness :
    elasticsearchProxy ("worldping") 2024 1 1 ("GET") ("worldping-2024-01-01/_stats") 7 =
      ProxyOutcome.json 200 "ok"
    ∧ elasticsearchProxy ("worldping") 2024 1 1 ("POST") ("_msearch") 7 =
      ProxyOutcome.proxied 7
    ∧ elasticsearchProxy ("worldping") 2024 1 1 ("DELETE") ("foo") 7 =
      ProxyOutcome.json 404 "Not Found" := by
  refine ⟨?_, ?_, ?_⟩
  · exact (c8_proxy_routing ("worldping") 2024 1 1 ("GET") ("worldping-2024-01-01/_stats") 7).1
      rfl (by decide)
  · exact (c8_proxy_routing ("worldping") 2024 1 1 ("POST") ("_msearch") 7).2.1 rfl rfl
  · exact (c8_proxy_routing ("worldping") 2024 1 1 ("DELETE") ("foo") 7).2.2
      (by decide) (by decide)

/-- C9: pathSlug is idempotent on every string, and the two documented
examples hold: the slash-a-slash-b-dot-c path maps to a_b_c, and the bare
slash maps to root. -/
theorem c9_pathSlug_idem :
    (∀ p, pathSlug (pathSlug p) = pathSlug p)
    ∧ pathSlug ("/a/b.c") = "a_b_c" ∧ pathSlug ("/") = "root" := by
  refine ⟨?_, by decide, by decide⟩
  intro p
  show String.mk (pathSlugList (pathSlugList p.data)) = String.mk (pathSlugList p.data)
  obtain ⟨h1, h2⟩ := pathSlugList_chars p.data
  exact congrArg String.mk (pathSlugList_fixed _ h1 h2)

/-- C10: the Basic authorization header carrying the base64 encoding of the
bare word api_key (no colon) decodes successfully, and getApiKey reaches
the out-of-bounds index of element 1 of the one-element colon split; in
the running program that index panics instead of producing a 401. -/
theorem c10_getApiKey_oob :
    base64DecodeString ("YXBpX2tleQ==") = some [97, 112, 105, 95, 107, 101, 121]
    ∧ getApiKey ("Basic YXBpX2tleQ==") = ApiKeyResult.outOfRange := by
  decide

end WorldpingGw
